import Mathlib

/-!
Verification development for the cal-bridge repository.

The repository implements a request/response correlation protocol over an
email inbox: `src/email-sender.ts` tags an outbound message with a fresh
request id, `src/email-receiver.ts` (class ResponseWatcher) polls the inbox
for a reply whose subject carries that id and whose body parses as a JSON
object, and the client facade (CalendarEmailClient) wraps every public
operation so that protocol failures are normalized into response objects.

This file shallowly embeds those components:
  - a JSON value type and an executable parser modelling ECMAScript
    JSON.parse on the inputs the receiver feeds it,
  - JavaScript object semantics (insertion-ordered association lists with
    last-write-wins assignment) for the spread in extractApiResponse,
  - ResponseWatcher.extractApiResponse, ResponseWatcher.poll and the
    waitForResponse polling loop as a step function over a trace of poll
    cycles (each cycle supplies the clock reading and the transport result),
  - CalendarEmailClient.sendRequest / executeApiCall over those models.
-/

/-- JavaScript values produced by JSON.parse.  Numbers are kept as their
source lexeme: no claim below distinguishes two lexemes of equal numeric
value, and this avoids floating point. -/
inductive Json where
  | null
  | bool (b : Bool)
  | num (lit : String)
  | str (s : String)
  | arr (elems : List Json)
  | obj (fields : List (String × Json))

/-- A JavaScript object: fields in insertion order. -/
abbrev JsObj := List (String × Json)

/-- JavaScript property assignment `o[k] = v`: overwrite in place if the key
exists (keeping its position), otherwise append. -/
def objSet : JsObj → String → Json → JsObj
  | [], k, v => [(k, v)]
  | (k1, v1) :: rest, k, v =>
    if k1 = k then (k, v) :: rest else (k1, v1) :: objSet rest k v

/-- JavaScript property read `o[k]` (first occurrence). -/
def objGet : JsObj → String → Option Json
  | [], _ => none
  | (k1, v1) :: rest, k => if k1 = k then some v1 else objGet rest k

/-- The open-brace character (written numerically throughout). -/
def lbrace : Char := Char.ofNat 123

/-- The close-brace character. -/
def rbrace : Char := Char.ofNat 125

/-- JSON whitespace accepted by JSON.parse. -/
def isJsonWs (c : Char) : Bool :=
  c = ' ' || c = '\t' || c = '\n' || c = '\r'

/-- Drop leading JSON whitespace. -/
def skipWs : List Char → List Char
  | [] => []
  | c :: rest => if isJsonWs c then skipWs rest else c :: rest

/-- Value of a hexadecimal digit. -/
def hexVal (c : Char) : Option Nat :=
  if 48 ≤ c.toNat ∧ c.toNat ≤ 57 then some (c.toNat - 48)
  else if 97 ≤ c.toNat ∧ c.toNat ≤ 102 then some (c.toNat - 87)
  else if 65 ≤ c.toNat ∧ c.toNat ≤ 70 then some (c.toNat - 55)
  else none

/-- Translate a single-character JSON string escape. -/
def escChar (c : Char) : Option Char :=
  if c = '"' then some '"'
  else if c = '\\' then some '\\'
  else if c = '/' then some '/'
  else if c = 'b' then some (Char.ofNat 8)
  else if c = 'f' then some (Char.ofNat 12)
  else if c = 'n' then some '\n'
  else if c = 'r' then some '\r'
  else if c = 't' then some '\t'
  else none

/-- Push a code point coming from a \\uXXXX escape onto the (reversed)
accumulator of code points, combining a low surrogate with an immediately
preceding high surrogate as a JavaScript string would. -/
def pushUnit (acc : List Nat) (n : Nat) : List Nat :=
  if 0xDC00 ≤ n ∧ n ≤ 0xDFFF then
    match acc with
    | h :: t =>
      if 0xD800 ≤ h ∧ h ≤ 0xDBFF then
        (0x10000 + (h - 0xD800) * 0x400 + (n - 0xDC00)) :: t
      else n :: acc
    | [] => n :: acc
  else n :: acc

/-- A code point as a Char.  An unpaired UTF-16 surrogate, which a
JavaScript string can hold but a Lean Char cannot, is approximated by
U+FFFD; no input in this development exercises that corner. -/
def codeToChar (n : Nat) : Char :=
  if n < 0xD800 ∨ (0xE000 ≤ n ∧ n < 0x110000) then Char.ofNat n
  else Char.ofNat 0xFFFD

/-- Body of a JSON string literal, after the opening quote.  Accumulates
code points (reversed) and returns the string plus the input after the
closing quote. -/
def parseStringBody : List Nat → List Char → Option (String × List Char)
  | acc, '"' :: rest => some (String.mk (acc.reverse.map codeToChar), rest)
  | acc, '\\' :: 'u' :: a :: b :: c :: d :: rest =>
    (match hexVal a, hexVal b, hexVal c, hexVal d with
     | some ha, some hb, some hc, some hd =>
       parseStringBody (pushUnit acc (((ha * 16 + hb) * 16 + hc) * 16 + hd)) rest
     | _, _, _, _ => none)
  | acc, '\\' :: e :: rest =>
    (match escChar e with
     | some c => parseStringBody (c.toNat :: acc) rest
     | none => none)
  | acc, c :: rest =>
    if c.toNat < 32 then none else parseStringBody (c.toNat :: acc) rest
  | _, [] => none

/-- Longest prefix of decimal digits. -/
def takeDigits (cs : List Char) : List Char × List Char :=
  cs.span (fun c => c.isDigit)

/-- Optional fraction part of a JSON number. -/
def fracStep : List Char → Option (List Char × List Char)
  | '.' :: r =>
    let p := takeDigits r
    if p.1.isEmpty then none else some ('.' :: p.1, p.2)
  | cs => some ([], cs)

/-- Optional exponent part of a JSON number. -/
def expStep : List Char → Option (List Char × List Char)
  | [] => some ([], [])
  | c :: r =>
    if c = 'e' ∨ c = 'E' then
      let sp : List Char × List Char :=
        match r with
        | '+' :: rr => (['+'], rr)
        | '-' :: rr => (['-'], rr)
        | _ => ([], r)
      let p := takeDigits sp.2
      if p.1.isEmpty then none else some (c :: (sp.1 ++ p.1), p.2)
    else some ([], c :: r)

/-- JSON number grammar: optional minus, integer part without leading
zeros, optional fraction, optional exponent.  Returns the lexeme. -/
def parseNumber (cs : List Char) : Option (String × List Char) :=
  let sp : List Char × List Char :=
    match cs with
    | '-' :: r => (['-'], r)
    | _ => ([], cs)
  match sp.2 with
  | [] => none
  | c :: r =>
    let ip : Option (List Char × List Char) :=
      if c = '0' then some (['0'], r)
      else if c.isDigit then
        let p := takeDigits r
        some (c :: p.1, p.2)
      else none
    match ip with
    | none => none
    | some (intPart, cs1) =>
      match fracStep cs1 with
      | none => none
      | some (fracPart, cs2) =>
        match expStep cs2 with
        | none => none
        | some (expPart, cs3) =>
          some (String.mk (sp.1 ++ intPart ++ fracPart ++ expPart), cs3)

/-- Work items of the JSON parser: a value, the members of an object after
its opening brace, or the elements of an array after its opening bracket.
Object members are inserted with objSet, so duplicate keys behave as in
JSON.parse: the last value wins, the first position is kept. -/
inductive ParseTask where
  | value (cs : List Char)
  | members (cs : List Char) (acc : List (String × Json))
  | elems (cs : List Char) (acc : List Json)

/-- Fueled recursive-descent JSON parser.  The fuel only bounds nesting;
jsonParseChars supplies more fuel than any input can consume. -/
def parseStep : Nat → ParseTask → Option (Json × List Char)
  | 0, _ => none
  | Nat.succ f, ParseTask.value cs =>
    (match cs with
     | [] => none
     | c :: rest =>
       if c = lbrace then
         match skipWs rest with
         | [] => none
         | c1 :: r1 =>
           if c1 = rbrace then some (Json.obj [], r1)
           else parseStep f (ParseTask.members (c1 :: r1) [])
       else if c = '[' then
         match skipWs rest with
         | [] => none
         | c1 :: r1 =>
           if c1 = ']' then some (Json.arr [], r1)
           else parseStep f (ParseTask.elems (c1 :: r1) [])
       else if c = '"' then
         match parseStringBody [] rest with
         | some (s, r) => some (Json.str s, r)
         | none => none
       else if c = 't' then
         match rest with
         | 'r' :: 'u' :: 'e' :: r => some (Json.bool true, r)
         | _ => none
       else if c = 'f' then
         match rest with
         | 'a' :: 'l' :: 's' :: 'e' :: r => some (Json.bool false, r)
         | _ => none
       else if c = 'n' then
         match rest with
         | 'u' :: 'l' :: 'l' :: r => some (Json.null, r)
         | _ => none
       else
         match parseNumber cs with
         | some (lit, r) => some (Json.num lit, r)
         | none => none)
  | Nat.succ f, ParseTask.members cs acc =>
    (match cs with
     | '"' :: rest =>
       (match parseStringBody [] rest with
        | some (k, cs1) =>
          (match skipWs cs1 with
           | ':' :: cs2 =>
             (match parseStep f (ParseTask.value (skipWs cs2)) with
              | some (v, cs3) =>
                (match skipWs cs3 with
                 | [] => none
                 | c4 :: cs4 =>
                   if c4 = ',' then parseStep f (ParseTask.members (skipWs cs4) (objSet acc k v))
                   else if c4 = rbrace then some (Json.obj (objSet acc k v), cs4)
                   else none)
              | none => none)
           | _ => none)
        | none => none)
     | _ => none)
  | Nat.succ f, ParseTask.elems cs acc =>
    (match parseStep f (ParseTask.value cs) with
     | some (v, cs1) =>
       (match skipWs cs1 with
        | [] => none
        | c2 :: cs2 =>
          if c2 = ',' then parseStep f (ParseTask.elems (skipWs cs2) (acc ++ [v]))
          else if c2 = ']' then some (Json.arr (acc ++ [v]), cs2)
          else none)
     | none => none)

/-- JSON.parse on a character list: leading and trailing whitespace allowed,
exactly one value. -/
def jsonParseChars (cs : List Char) : Option Json :=
  match parseStep (cs.length + 2) (ParseTask.value (skipWs cs)) with
  | some (v, rest) =>
    (match skipWs rest with
     | [] => some v
     | _ => none)
  | none => none

/-- JSON.parse on a string. -/
def jsonParse (s : String) : Option Json := jsonParseChars s.toList

example : jsonParse "\x7b\"a\":1\x7d" = some (Json.obj [("a", Json.num "1")]) := by rfl
example : jsonParse " [1, true, \"x\"] " =
    some (Json.arr [Json.num "1", Json.bool true, Json.str "x"]) := by rfl
example : jsonParse "\x7b\"a\":1" = none := by rfl
example : jsonParse "nope" = none := by rfl
example : jsonParse "\x7b\"a\":\x7b\"b\":[null]\x7d\x7d" =
    some (Json.obj [("a", Json.obj [("b", Json.arr [Json.null])])]) := by rfl

/-! ## ResponseWatcher.extractApiResponse (src/email-receiver.ts, lines 216-254) -/

/-- First index at which pat occurs in l, as String.prototype.indexOf. -/
def firstOccur : List Char → List Char → Option Nat
  | [], pat => if pat = [] then some 0 else none
  | c :: rest, pat =>
    if pat.isPrefixOf (c :: rest) then some 0
    else (firstOccur rest pat).map (fun i => i + 1)

/-- Last index at which character c occurs, as String.prototype.lastIndexOf. -/
def lastIdxOf : List Char → Char → Option Nat
  | [], _ => none
  | x :: rest, c =>
    match lastIdxOf rest c with
    | some i => some (i + 1)
    | none => if x = c then some 0 else none

/-- String.prototype.includes. -/
def strContains (s pat : String) : Bool := (firstOccur s.toList pat.toList).isSome

/-- The reply-quote delimiter the receiver truncates at (40 underscores). -/
def delimiter : String := "________________________________________"

/-- Strip quoted email history: keep the text before the first occurrence of
the delimiter (body.substring(0, delimiterIndex)). -/
def truncateAtDelimiter (cs : List Char) : List Char :=
  match firstOccur cs delimiter.toList with
  | some i => cs.take i
  | none => cs

/-- body.replace(/\r/g, double-backslash r): each carriage return becomes the
two characters backslash, r. -/
def escCR (cs : List Char) : List Char :=
  cs.flatMap (fun c => if c = '\r' then ['\\', 'r'] else [c])

/-- body.replace(/\n/g, double-backslash n). -/
def escLF (cs : List Char) : List Char :=
  cs.flatMap (fun c => if c = '\n' then ['\\', 'n'] else [c])

/-- The body text extractApiResponse hands to the brace locator: truncated at
the delimiter, then newline characters escaped. -/
def preprocessBody (body : String) : List Char :=
  escLF (escCR (truncateAtDelimiter body.toList))

/-- Locate the candidate JSON text: from the first opening brace to the last
closing brace inclusive; null when either is missing or they cross. -/
def locateJson (cs : List Char) : Option (List Char) :=
  match firstOccur cs [lbrace], lastIdxOf cs rbrace with
  | some s, some e => if s ≥ e then none else some ((cs.drop s).take (e + 1 - s))
  | _, _ => none

/-- The JavaScript test `typeof parsed === "object" && parsed !== null`:
true exactly for objects and arrays among JSON.parse results. -/
def typeofObjectNotNull : Json → Bool
  | Json.obj _ => true
  | Json.arr _ => true
  | _ => false

/-- Own enumerable entries of a parsed value, as object spread sees them
(spreading an array yields its index/element pairs). -/
def spreadEntries : Json → JsObj
  | Json.obj fields => fields
  | Json.arr xs => xs.enum.map (fun p => (toString p.1, p.2))
  | _ => []

/-- Spread fields into a base object: JavaScript assigns each property in
order, overwriting existing keys in place. -/
def spreadFields (base : JsObj) (fs : JsObj) : JsObj :=
  fs.foldl (fun o kv => objSet o kv.1 kv.2) base

/-- The object literal on line 247 of the receiver:
  return (requestId, messageId, ...parsed). -/
def mkApiResponse (requestId messageId : String) (fs : JsObj) : JsObj :=
  spreadFields [("requestId", Json.str requestId), ("messageId", Json.str messageId)] fs

/-- ResponseWatcher.extractApiResponse: truncate at the delimiter, escape
newlines, take first-brace..last-brace, JSON.parse, and on a non-null object
result build the response by spreading the payload over the watcher's
requestId and messageId.  Every failure returns none. -/
def extractApiResponse (body requestId messageId : String) : Option JsObj :=
  match locateJson (preprocessBody body) with
  | none => none
  | some js =>
    match jsonParseChars js with
    | some v =>
      if typeofObjectNotNull v then
        some (mkApiResponse requestId messageId (spreadEntries v))
      else none
    | none => none

example :
    extractApiResponse "\x7b\"status\":\"success\"\x7d" "r1" "m1" =
      some [("requestId", Json.str "r1"), ("messageId", Json.str "m1"),
            ("status", Json.str "success")] := by rfl
example : extractApiResponse "no payload here" "r1" "m1" = none := by rfl
example : extractApiResponse "" "r1" "m1" = none := by rfl
example : extractApiResponse "\x7b broken" "r1" "m1" = none := by rfl
example : extractApiResponse "val: 42" "r1" "m1" = none := by rfl
example :
    extractApiResponse ("pre \x7b\"requestId\":\"other\"\x7d post") "r1" "m1" =
      some [("requestId", Json.str "other"), ("messageId", Json.str "m1")] := by rfl

/-! ## Object and spread lemmas -/

/-- Keys of a JavaScript object, in order. -/
def objKeys (o : JsObj) : List String := o.map Prod.fst

theorem objGet_objSet_self (o : JsObj) (k : String) (v : Json) :
    objGet (objSet o k v) k = some v := by
  induction o with
  | nil => simp [objSet, objGet]
  | cons kv rest ih =>
    obtain ⟨k1, v1⟩ := kv
    by_cases h : k1 = k
    · simp [objSet, objGet, h]
    · simp [objSet, objGet, h, ih]

theorem objGet_objSet_other (o : JsObj) (k k2 : String) (v : Json) (h : k ≠ k2) :
    objGet (objSet o k v) k2 = objGet o k2 := by
  induction o with
  | nil => simp [objSet, objGet, h]
  | cons kv rest ih =>
    obtain ⟨k1, v1⟩ := kv
    by_cases h1 : k1 = k
    · subst h1
      simp [objSet, objGet, h]
    · simp only [objSet, if_neg h1]
      by_cases h2 : k1 = k2
      · simp [objGet, h2]
      · simp [objGet, h2, ih]

theorem objGet_eq_none_of_not_mem (o : JsObj) (k : String) (h : k ∉ objKeys o) :
    objGet o k = none := by
  induction o with
  | nil => rfl
  | cons kv rest ih =>
    obtain ⟨k1, v1⟩ := kv
    simp only [objKeys, List.map_cons, List.mem_cons, not_or] at h
    have h1 : ¬ k1 = k := fun hh => h.1 hh.symm
    simp only [objGet, if_neg h1]
    exact ih (by simpa [objKeys] using h.2)

theorem objKeys_objSet (o : JsObj) (k : String) (v : Json) :
    objKeys (objSet o k v) = if k ∈ objKeys o then objKeys o else objKeys o ++ [k] := by
  induction o with
  | nil => simp [objSet, objKeys]
  | cons kv rest ih =>
    obtain ⟨k1, v1⟩ := kv
    by_cases h : k1 = k
    · subst h
      simp [objSet, objKeys]
    · have h2 : ¬ k = k1 := fun hh => h hh.symm
      simp only [objSet, if_neg h, objKeys, List.map_cons, List.mem_cons, h2, false_or]
      by_cases hm : k ∈ List.map Prod.fst rest
      · simp only [if_pos hm]
        simpa [objKeys, hm] using ih
      · have := ih
        simp only [objKeys, if_neg hm] at this
        simp [this, hm]

theorem nodup_objKeys_objSet (o : JsObj) (k : String) (v : Json)
    (h : (objKeys o).Nodup) : (objKeys (objSet o k v)).Nodup := by
  rw [objKeys_objSet]
  by_cases hm : k ∈ objKeys o
  · simpa [hm] using h
  · simp only [if_neg hm]
    refine List.nodup_append.mpr ⟨h, List.nodup_singleton k, ?_⟩
    intro a ha hb
    simp only [List.mem_singleton] at hb
    subst hb
    exact hm ha

theorem spreadFields_cons (base : JsObj) (k : String) (v : Json) (fs : JsObj) :
    spreadFields base ((k, v) :: fs) = spreadFields (objSet base k v) fs := rfl

theorem spreadFields_get_none (fs : JsObj) (base : JsObj) (k : String)
    (h : objGet fs k = none) : objGet (spreadFields base fs) k = objGet base k := by
  induction fs generalizing base with
  | nil => rfl
  | cons kv rest ih =>
    obtain ⟨k1, v1⟩ := kv
    by_cases h1 : k1 = k
    · simp [objGet, h1] at h
    · simp only [objGet, if_neg h1] at h
      rw [spreadFields_cons, ih _ h, objGet_objSet_other _ _ _ _ h1]

theorem spreadFields_get_some (fs : JsObj) (base : JsObj) (k : String) (v : Json)
    (hnd : (objKeys fs).Nodup) (h : objGet fs k = some v) :
    objGet (spreadFields base fs) k = some v := by
  induction fs generalizing base with
  | nil => simp [objGet] at h
  | cons kv rest ih =>
    obtain ⟨k1, v1⟩ := kv
    simp only [objKeys, List.map_cons, List.nodup_cons] at hnd
    by_cases h1 : k1 = k
    · subst h1
      have hv : v1 = v := by simpa [objGet] using h
      subst hv
      rw [spreadFields_cons,
        spreadFields_get_none _ _ _ (objGet_eq_none_of_not_mem _ _ (by simpa [objKeys] using hnd.1)),
        objGet_objSet_self]
    · simp only [objGet, if_neg h1] at h
      rw [spreadFields_cons]
      exact ih _ (by simpa [objKeys] using hnd.2) h

/-- Invariant carried by a parser work item: the accumulated object members
of a members task have distinct keys. -/
def taskAccNodup : ParseTask → Prop
  | ParseTask.members _ acc => (objKeys acc).Nodup
  | _ => True

theorem parseStep_obj_nodup (f : Nat) :
    ∀ (task : ParseTask) (fs : JsObj) (rest : List Char),
    taskAccNodup task → parseStep f task = some (Json.obj fs, rest) →
    (objKeys fs).Nodup := by
  induction f with
  | zero =>
    intro task fs rest _ h
    simp [parseStep] at h
  | succ f ih =>
    intro task fs rest hacc h
    cases task with
    | value cs =>
      simp only [parseStep] at h
      repeat' split at h
      all_goals first
        | exact Option.noConfusion h
        | exact ih _ _ _ (by simp [taskAccNodup, objKeys]) h
        | (simp only [Option.some.injEq, Prod.mk.injEq, Json.obj.injEq] at h
           obtain ⟨h1, h2⟩ := h
           subst h1
           exact List.nodup_nil)
        | simp at h
    | members cs acc =>
      simp only [taskAccNodup] at hacc
      simp only [parseStep] at h
      repeat' split at h
      all_goals first
        | exact Option.noConfusion h
        | exact ih _ _ _ (by exact nodup_objKeys_objSet _ _ _ hacc) h
        | (simp only [Option.some.injEq, Prod.mk.injEq, Json.obj.injEq] at h
           obtain ⟨h1, h2⟩ := h
           subst h1
           exact nodup_objKeys_objSet _ _ _ hacc)
        | simp at h
    | elems cs acc =>
      simp only [parseStep] at h
      repeat' split at h
      all_goals first
        | exact Option.noConfusion h
        | exact ih _ _ _ (by simp [taskAccNodup]) h
        | simp at h

theorem jsonParseChars_obj_nodup (cs : List Char) (fs : JsObj)
    (h : jsonParseChars cs = some (Json.obj fs)) : (objKeys fs).Nodup := by
  unfold jsonParseChars at h
  split at h
  · rename_i v rest hp
    split at h
    · simp only [Option.some.injEq] at h
      subst h
      exact parseStep_obj_nodup _ _ _ _ (by simp [taskAccNodup]) hp
    · exact Option.noConfusion h
  · exact Option.noConfusion h

/-! ## Claims about extractApiResponse -/

/-- C4: for a body consisting of a serialized object, then the reply-quote
delimiter, then quoted history containing another object, extractApiResponse
truncates at the first delimiter occurrence before locating braces and so
returns the payload in front of the delimiter, not the quoted one. -/
theorem extractApiResponse_truncates_at_delimiter :
    extractApiResponse
      ("\x7b\"a\":1\x7d" ++ delimiter ++ "\r\nOn Monday the server wrote:\r\n\x7b\"b\":2\x7d")
      "req-1" "msg-1"
      = some [("requestId", Json.str "req-1"), ("messageId", Json.str "msg-1"),
              ("a", Json.num "1")] := by
  rfl

/-- C5: decoding fails closed.  extractApiResponse is a total function into
Option (it never throws); a payload is produced only when the located
brace-to-brace substring parses as a non-null object, and in every other
case (no braces, JSON parse failure, non-object JSON) the result is none. -/
theorem extractApiResponse_fails_closed (body requestId messageId : String) :
    (∀ r, extractApiResponse body requestId messageId = some r →
        ∃ js v, locateJson (preprocessBody body) = some js ∧ jsonParseChars js = some v ∧
          typeofObjectNotNull v = true ∧ r = mkApiResponse requestId messageId (spreadEntries v))
    ∧ (∀ js, locateJson (preprocessBody body) = some js → jsonParseChars js = none →
        extractApiResponse body requestId messageId = none)
    ∧ (∀ js v, locateJson (preprocessBody body) = some js → jsonParseChars js = some v →
        typeofObjectNotNull v = false → extractApiResponse body requestId messageId = none)
    ∧ (locateJson (preprocessBody body) = none →
        extractApiResponse body requestId messageId = none) := by
  refine ⟨?_, ?_, ?_, ?_⟩
  · intro r h
    unfold extractApiResponse at h
    split at h
    · exact Option.noConfusion h
    · rename_i js hjs
      split at h
      · rename_i v hv
        split at h
        · rename_i hto
          simp only [Option.some.injEq] at h
          exact ⟨js, v, hjs, hv, hto, h.symm⟩
        · exact Option.noConfusion h
      · exact Option.noConfusion h
  · intro js hl hp
    simp [extractApiResponse, hl, hp]
  · intro js v hl hp hto
    simp [extractApiResponse, hl, hp, hto]
  · intro hl
    simp [extractApiResponse, hl]

/-- Witness for C5 at a concrete brace-less body. -/
theorem extractApiResponse_fails_closed_witness :
    extractApiResponse "hello there" "r" "m" = none :=
  (extractApiResponse_fails_closed "hello there" "r" "m").2.2.2 rfl

/-- C10: the matched response is the object literal
(requestId, messageId, ...payload): a payload key named requestId or
messageId overrides the watcher-supplied value, and the watcher-supplied
values survive exactly when the payload omits those keys.  The distinct-keys
hypothesis holds for every payload JSON.parse can produce (last conjunct). -/
theorem mkApiResponse_payload_overrides (requestId messageId : String) (fs : JsObj)
    (hnd : (objKeys fs).Nodup) :
    (∀ v, objGet fs "requestId" = some v →
        objGet (mkApiResponse requestId messageId fs) "requestId" = some v)
    ∧ (objGet fs "requestId" = none →
        objGet (mkApiResponse requestId messageId fs) "requestId" = some (Json.str requestId))
    ∧ (∀ v, objGet fs "messageId" = some v →
        objGet (mkApiResponse requestId messageId fs) "messageId" = some v)
    ∧ (objGet fs "messageId" = none →
        objGet (mkApiResponse requestId messageId fs) "messageId" = some (Json.str messageId))
    ∧ (∀ cs fs2, jsonParseChars cs = some (Json.obj fs2) → (objKeys fs2).Nodup) := by
  unfold mkApiResponse
  refine ⟨fun v h => spreadFields_get_some _ _ _ _ hnd h, fun h => ?_,
          fun v h => spreadFields_get_some _ _ _ _ hnd h, fun h => ?_,
          fun cs fs2 hp => jsonParseChars_obj_nodup cs fs2 hp⟩
  · rw [spreadFields_get_none _ _ _ h]
    rfl
  · rw [spreadFields_get_none _ _ _ h]
    rfl

/-- Witness for C10: a payload carrying its own requestId key wins. -/
theorem mkApiResponse_payload_overrides_witness :
    objGet (mkApiResponse "w-req" "w-msg" [("requestId", Json.str "payload-req")]) "requestId"
      = some (Json.str "payload-req") :=
  (mkApiResponse_payload_overrides "w-req" "w-msg" [("requestId", Json.str "payload-req")]
    (by simp [objKeys])).1 _ rfl

/-! ## ResponseWatcher polling model (src/email-receiver.ts, lines 19-143)

A poll cycle is one invocation of the check callback in waitForResponse:
read the clock, test the deadline, run poll (one messages.list call plus a
messages.get per new candidate), then either resolve, reject, or schedule
the next cycle after pollIntervalMs.  The environment is a trace of cycles,
each supplying the Date.now() reading and the transport outcome of the
messages.list call (Except.error models the list call rejecting). -/

/-- Error type of the repository (src/types.ts, CalendarApiError). -/
structure CalendarApiError where
  message : String
  code : String
  requestId : Option String
deriving DecidableEq

namespace ErrorCodes

def TIMEOUT : String := "TIMEOUT"

def NOT_CONNECTED : String := "NOT_CONNECTED"

def SEND_FAILED : String := "SEND_FAILED"

end ErrorCodes

/-- The rejection value built on lines 56-62 of the receiver. -/
def timeoutError (timeoutMs : Int) (requestId : String) : CalendarApiError :=
  ⟨"Request timed out after " ++ toString timeoutMs ++ "ms", ErrorCodes.TIMEOUT,
    some requestId⟩

/-- Fields fetchAndParseMessage extracts from a fetched message
(src/types.ts, ReceivedEmail). -/
structure ReceivedEmail where
  messageId : String
  threadId : String
  fromAddr : String
  subject : String
  body : String
  timestamp : Int
deriving DecidableEq

/-- One entry of the messages.list result together with the outcome of the
messages.get fetch for it: id none models a listing without an id (skipped
on line 117), fetch none models fetchAndParseMessage returning null (its
own try/catch swallows fetch errors). -/
structure Msg where
  id : Option String
  fetch : Option ReceivedEmail
deriving DecidableEq

/-- One poll cycle of the environment: the Date.now() reading at the start
of the check callback and the transport outcome of the messages.list call. -/
structure CheckCycle where
  now : Int
  transport : Except Unit (List Msg)

/-- Transport calls the client performs, for stating the zero-I/O claims. -/
inductive TransportOp where
  | send
  | list
  | get (id : String)
  | modify (id : String)
  | batchModify (ids : List Json)

/-- Result of ResponseWatcher.poll on one batch of listed messages:
the updated processedMessageIds set, the ids fetched this cycle (in order),
and the first match (response plus its transport message id), if any. -/
structure PollResult where
  processed : List String
  examined : List String
  found : Option (JsObj × String)

/-- ResponseWatcher.poll, lines 116-142: iterate the listed messages in
transport order; skip entries without an id; skip ids already in
processedMessageIds; otherwise add the id to the set and fetch; skip when
the fetch fails, when the subject does not contain the request id, or when
extractApiResponse returns null; return the first successful extraction. -/
def pollCycle (requestId : String) : List Msg → List String → PollResult
  | [], processed => ⟨processed, [], none⟩
  | m :: rest, processed =>
    match m.id with
    | none => pollCycle requestId rest processed
    | some i =>
      if i ∈ processed then pollCycle requestId rest processed
      else
        match m.fetch with
        | none =>
          let r := pollCycle requestId rest (i :: processed)
          ⟨r.processed, i :: r.examined, r.found⟩
        | some em =>
          if strContains em.subject requestId then
            match extractApiResponse em.body requestId i with
            | some resp => ⟨i :: processed, [i], some (resp, i)⟩
            | none =>
              let r := pollCycle requestId rest (i :: processed)
              ⟨r.processed, i :: r.examined, r.found⟩
          else
            let r := pollCycle requestId rest (i :: processed)
            ⟨r.processed, i :: r.examined, r.found⟩

/-- Termination of one watcher: the response was found, the deadline was
observed expired (Promise rejected), or the trace ended with the watcher
still waiting. -/
inductive Outcome where
  | found (r : JsObj) (processed : List String)
  | timeout (e : CalendarApiError)
  | pending (processed : List String)

/-- What a run of the polling loop did: the ids fetched (in order), the
delays passed to setTimeout, the transport calls made, and how it ended. -/
structure RunResult where
  examined : List String
  delays : List Int
  ops : List TransportOp
  outcome : Outcome

/-- Transport calls of one non-throwing poll cycle: the list call, one get
per newly examined id, and the markAsRead modify on a match. -/
def cycleOps (examined : List String) (found : Option (JsObj × String)) : List TransportOp :=
  TransportOp.list :: examined.map TransportOp.get ++
    (match found with
     | some (_, mid) => [TransportOp.modify mid]
     | none => [])

/-- The check loop of waitForResponse, lines 53-85: at each cycle compare
Date.now() - startTime against timeoutMs and reject with the timeout error
when strictly exceeded; otherwise run poll; a transport error is swallowed
and the next cycle is scheduled after pollIntervalMs, exactly as a cycle
with no match. -/
def run (requestId : String) (startTime timeoutMs pollIntervalMs : Int) :
    List CheckCycle → List String → RunResult
  | [], processed => ⟨[], [], [], Outcome.pending processed⟩
  | c :: rest, processed =>
    if timeoutMs < c.now - startTime then
      ⟨[], [], [], Outcome.timeout (timeoutError timeoutMs requestId)⟩
    else
      match c.transport with
      | Except.error _ =>
        let r := run requestId startTime timeoutMs pollIntervalMs rest processed
        ⟨r.examined, pollIntervalMs :: r.delays, TransportOp.list :: r.ops, r.outcome⟩
      | Except.ok msgs =>
        let p := pollCycle requestId msgs processed
        match p.found with
        | some (resp, _) =>
          ⟨p.examined, [], cycleOps p.examined p.found, Outcome.found resp p.processed⟩
        | none =>
          let r := run requestId startTime timeoutMs pollIntervalMs rest p.processed
          ⟨p.examined ++ r.examined, pollIntervalMs :: r.delays,
            cycleOps p.examined none ++ r.ops, r.outcome⟩

/-- ResponseWatcher.waitForResponse for a watcher as the constructor builds
it: processedMessageIds starts empty (line 26), startTime is the clock
reading at construction (line 43). -/
def waitForResponse (requestId : String) (startTime timeoutMs pollIntervalMs : Int)
    (cycles : List CheckCycle) : RunResult :=
  run requestId startTime timeoutMs pollIntervalMs cycles []

/-- Subject line of an outbound request (src/email-sender.ts, line 74);
reply subjects carry it, so they contain the request id. -/
def buildSubject (method action requestId : String) : String :=
  "#calendarapi " ++ method ++ " " ++ action ++ " [" ++ requestId ++ "]"

example :
    (pollCycle "r1"
      [⟨some "m1", some ⟨"m1", "t1", "cal", "Re: " ++ buildSubject "GET" "list" "r1",
        "\x7b\"status\":\"success\"\x7d", 0⟩⟩] []).found
    = some ([("requestId", Json.str "r1"), ("messageId", Json.str "m1"),
             ("status", Json.str "success")], "m1") := by rfl

example :
    (run "r1" 0 30000 2000
      [⟨1000, Except.error ()⟩, ⟨40000, Except.ok []⟩] []).outcome
    = Outcome.timeout (timeoutError 30000 "r1") := by rfl

/-! ## CalendarEmailClient (client facade cited by the claims)

sendApiEmail is abstracted as an Except input: the transport either accepts
the message and returns the sent metadata, or sendApiEmail wraps the
failure into a SEND_FAILED CalendarApiError.  The watcher runs on a trace
of check cycles as above. -/

/-- Metadata sendApiEmail returns (src/types.ts, SentEmailMetadata). -/
structure SentEmailMetadata where
  requestId : String
  messageId : String
  threadId : String
  timestamp : Int
deriving DecidableEq

/-- The error ensureConnected throws (client, lines 271-278). -/
def notConnectedError : CalendarApiError :=
  ⟨"Client is not connected. Call connect() first.", ErrorCodes.NOT_CONNECTED, none⟩

/-- The allow-list of backend-supported actions (client, line 198). -/
def supportedActions : List String := ["list"]

/-- The response returned for an unsupported action (client, lines 220-227). -/
def skippedResponse : JsObj :=
  [("status", Json.str "skipped"), ("requestId", Json.str "no-op"),
   ("data", Json.obj [("message",
     Json.str "Not implemented in backend yet. This action is currently disabled in the client.")])]

/-- Whether a number lexeme denotes zero (mantissa digits all zero). -/
def numLexemeZero (lit : String) : Bool :=
  (lit.toList.takeWhile (fun c => ¬ (c = 'e' ∨ c = 'E'))).all
    (fun c => c = '0' ∨ c = '-' ∨ c = '.')

/-- JavaScript truthiness of a JSON value, for `if (response.messageId)`. -/
def jsTruthy : Json → Bool
  | Json.null => false
  | Json.bool b => b
  | Json.str s => !s.isEmpty
  | Json.num lit => !(numLexemeZero lit)
  | Json.arr _ => true
  | Json.obj _ => true

/-- CalendarEmailClient.sendRequest, lines 209-269: first the allow-list
gate (skipped response, no I/O), then ensureConnected (throws without I/O),
then sendApiEmail, then a fresh ResponseWatcher awaited on the cycle trace;
on success the sent message and, when truthy, the response messageId are
cleaned up with a batchModify.  The first component is none when the trace
ends with the watcher still pending, some (ok r) when the call resolves,
some (error e) when it rejects; the second lists the transport calls. -/
def sendRequest (action : String) (connected : Bool)
    (sendRes : Except CalendarApiError SentEmailMetadata)
    (startTime timeoutMs pollIntervalMs : Int) (cycles : List CheckCycle) :
    Option (Except CalendarApiError JsObj) × List TransportOp :=
  if action ∈ supportedActions then
    if connected then
      match sendRes with
      | Except.error e => (some (Except.error e), [TransportOp.send])
      | Except.ok meta =>
        let w := waitForResponse meta.requestId startTime timeoutMs pollIntervalMs cycles
        match w.outcome with
        | Outcome.found r _ =>
          let ids : List Json := Json.str meta.messageId ::
            (match objGet r "messageId" with
             | some v => if jsTruthy v then [v] else []
             | none => [])
          (some (Except.ok r), TransportOp.send :: w.ops ++ [TransportOp.batchModify ids])
        | Outcome.timeout e => (some (Except.error e), TransportOp.send :: w.ops)
        | Outcome.pending _ => (none, TransportOp.send :: w.ops)
    else (some (Except.error notConnectedError), [])
  else (some (Except.ok skippedResponse), [])

/-- CalendarEmailClient.paramsErrorMessage, lines 302-315. -/
def paramsErrorMessage (e : CalendarApiError) : JsObj :=
  [("status", Json.str "error"), ("requestId", Json.str ""),
   ("error", Json.str e.message), ("data", Json.obj [("code", Json.str e.code)])]

/-- CalendarEmailClient.executeApiCall, lines 108-122: every operation
outcome, resolved or rejected, becomes a response object with durationMs
assigned; a rejection is normalized through paramsErrorMessage. -/
def executeApiCall (res : Except CalendarApiError JsObj) (start fin : Int) : JsObj :=
  match res with
  | Except.ok r => objSet r "durationMs" (Json.num (toString (fin - start)))
  | Except.error e => objSet (paramsErrorMessage e) "durationMs" (Json.num (toString (fin - start)))

/-- A public operation: executeApiCall around sendRequest.  none models a
call whose watcher is still pending when the trace ends. -/
def apiCall (action : String) (connected : Bool)
    (sendRes : Except CalendarApiError SentEmailMetadata)
    (startTime timeoutMs pollIntervalMs : Int) (cycles : List CheckCycle)
    (start fin : Int) : Option JsObj × List TransportOp :=
  match sendRequest action connected sendRes startTime timeoutMs pollIntervalMs cycles with
  | (some res, ops) => (some (executeApiCall res start fin), ops)
  | (none, ops) => (none, ops)

/-- CalendarEmailClient.listEvents (action GET list). -/
def listEvents := apiCall "list"

/-- CalendarEmailClient.createEvent (action POST create). -/
def createEvent := apiCall "create"

/-- CalendarEmailClient.updateEvent (action PATCH update). -/
def updateEvent := apiCall "update"

/-- CalendarEmailClient.deleteEvent (action DELETE event). -/
def deleteEvent := apiCall "event"

/-- CalendarEmailClient.healthCheck (action GET health). -/
def healthCheck := apiCall "health"

example :
    (createEvent true (Except.ok ⟨"r1", "s1", "t1", 0⟩) 0 30000 2000 [] 0 5).1
    = some [("status", Json.str "skipped"), ("requestId", Json.str "no-op"),
            ("data", Json.obj [("message",
              Json.str "Not implemented in backend yet. This action is currently disabled in the client.")]),
            ("durationMs", Json.num "5")] := by rfl

example :
    (listEvents true (Except.ok ⟨"r1", "s1", "t1", 0⟩) 0 30000 2000
      [⟨100, Except.ok [⟨some "m1", some ⟨"m1", "t1", "cal",
        "Re: " ++ buildSubject "GET" "list" "r1", "\x7b\"x\":1\x7d", 0⟩⟩]⟩] 0 5).1
    = some [("requestId", Json.str "r1"), ("messageId", Json.str "m1"),
            ("x", Json.num "1"), ("durationMs", Json.num "5")] := by rfl

/-! ## Poll-cycle and run lemmas -/

theorem pollCycle_processed_subset (requestId : String) (msgs : List Msg) :
    ∀ processed, processed ⊆ (pollCycle requestId msgs processed).processed := by
  induction msgs with
  | nil => intro processed; exact fun x hx => hx
  | cons m rest ih =>
    intro processed
    rcases hid : m.id with _ | i
    · simpa only [pollCycle, hid] using ih processed
    · by_cases hmem : i ∈ processed
      · simpa only [pollCycle, hid, if_pos hmem] using ih processed
      · have hstep : processed ⊆ i :: processed := fun x hx => List.mem_cons_of_mem i hx
        rcases hf : m.fetch with _ | em
        · simp only [pollCycle, hid, if_neg hmem, hf]
          exact fun x hx => ih (i :: processed) (hstep hx)
        · by_cases hsub : strContains em.subject requestId
          · rcases hex : extractApiResponse em.body requestId i with _ | resp
            · simp only [pollCycle, hid, if_neg hmem, hf, if_pos hsub, hex]
              exact fun x hx => ih (i :: processed) (hstep hx)
            · simp only [pollCycle, hid, if_neg hmem, hf, if_pos hsub, hex]
              exact hstep
          · simp only [pollCycle, hid, if_neg hmem, hf, if_neg hsub]
            exact fun x hx => ih (i :: processed) (hstep hx)

theorem pollCycle_examined_spec (requestId : String) (msgs : List Msg) :
    ∀ processed,
      ((pollCycle requestId msgs processed).examined.Nodup)
      ∧ (∀ x ∈ (pollCycle requestId msgs processed).examined, x ∉ processed)
      ∧ (∀ x ∈ (pollCycle requestId msgs processed).examined,
          x ∈ (pollCycle requestId msgs processed).processed) := by
  induction msgs with
  | nil =>
    intro processed
    refine ⟨List.nodup_nil, ?_, ?_⟩ <;> intro x hx <;> simp [pollCycle] at hx
  | cons m rest ih =>
    intro processed
    rcases hid : m.id with _ | i
    · simpa only [pollCycle, hid] using ih processed
    · by_cases hmem : i ∈ processed
      · simpa only [pollCycle, hid, if_pos hmem] using ih processed
      · have hrec := fun pr => ih pr
        have key : ∀ (r : PollResult), r = pollCycle requestId rest (i :: processed) →
            ((i :: r.examined).Nodup)
            ∧ (∀ x ∈ i :: r.examined, x ∉ processed)
            ∧ (∀ x ∈ i :: r.examined, x ∈ r.processed) := by
          intro r hr
          subst hr
          obtain ⟨hnd, hfresh, hin⟩ := ih (i :: processed)
          refine ⟨?_, ?_, ?_⟩
          · exact List.nodup_cons.mpr ⟨fun hx => (hfresh i hx) (List.mem_cons_self i _), hnd⟩
          · intro x hx
            rcases List.mem_cons.mp hx with h1 | h1
            · rw [h1]; exact hmem
            · exact fun hp => (hfresh x h1) (List.mem_cons_of_mem i hp)
          · intro x hx
            rcases List.mem_cons.mp hx with h1 | h1
            · rw [h1]
              exact pollCycle_processed_subset requestId rest (i :: processed)
                (List.mem_cons_self i processed)
            · exact hin x h1
        rcases hf : m.fetch with _ | em
        · simpa only [pollCycle, hid, if_neg hmem, hf] using key _ rfl
        · by_cases hsub : strContains em.subject requestId
          · rcases hex : extractApiResponse em.body requestId i with _ | resp
            · simpa only [pollCycle, hid, if_neg hmem, hf, if_pos hsub, hex] using key _ rfl
            · simp only [pollCycle, hid, if_neg hmem, hf, if_pos hsub, hex]
              refine ⟨List.nodup_singleton i, ?_, ?_⟩
              · intro x hx
                simp only [List.mem_singleton] at hx
                rw [hx]; exact hmem
              · intro x hx
                simp only [List.mem_singleton] at hx
                rw [hx]; exact List.mem_cons_self i processed
          · simpa only [pollCycle, hid, if_neg hmem, hf, if_neg hsub] using key _ rfl

theorem pollCycle_skip (requestId : String) (m : Msg) (rest : List Msg)
    (processed : List String) (i : String) (hid : m.id = some i) (hmem : i ∈ processed) :
    pollCycle requestId (m :: rest) processed = pollCycle requestId rest processed := by
  simp [pollCycle, hid, hmem]

theorem run_nil (requestId : String) (startTime timeoutMs pollIntervalMs : Int)
    (processed : List String) :
    run requestId startTime timeoutMs pollIntervalMs [] processed
      = ⟨[], [], [], Outcome.pending processed⟩ := rfl

theorem run_cons_expired (requestId : String) (startTime timeoutMs pollIntervalMs : Int)
    (c : CheckCycle) (rest : List CheckCycle) (processed : List String)
    (hexp : timeoutMs < c.now - startTime) :
    run requestId startTime timeoutMs pollIntervalMs (c :: rest) processed
      = ⟨[], [], [], Outcome.timeout (timeoutError timeoutMs requestId)⟩ := by
  simp [run, hexp]

theorem run_cons_error (requestId : String) (startTime timeoutMs pollIntervalMs : Int)
    (c : CheckCycle) (rest : List CheckCycle) (processed : List String)
    (hexp : ¬ timeoutMs < c.now - startTime) (ht : c.transport = Except.error ()) :
    run requestId startTime timeoutMs pollIntervalMs (c :: rest) processed
      = ⟨(run requestId startTime timeoutMs pollIntervalMs rest processed).examined,
         pollIntervalMs :: (run requestId startTime timeoutMs pollIntervalMs rest processed).delays,
         TransportOp.list :: (run requestId startTime timeoutMs pollIntervalMs rest processed).ops,
         (run requestId startTime timeoutMs pollIntervalMs rest processed).outcome⟩ := by
  simp [run, hexp, ht]

theorem run_cons_found (requestId : String) (startTime timeoutMs pollIntervalMs : Int)
    (c : CheckCycle) (rest : List CheckCycle) (processed : List String)
    (msgs : List Msg) (resp : JsObj) (mid : String)
    (hexp : ¬ timeoutMs < c.now - startTime) (ht : c.transport = Except.ok msgs)
    (hfound : (pollCycle requestId msgs processed).found = some (resp, mid)) :
    run requestId startTime timeoutMs pollIntervalMs (c :: rest) processed
      = ⟨(pollCycle requestId msgs processed).examined, [],
         cycleOps (pollCycle requestId msgs processed).examined (some (resp, mid)),
         Outcome.found resp (pollCycle requestId msgs processed).processed⟩ := by
  simp [run, hexp, ht, hfound]

theorem run_cons_nomatch (requestId : String) (startTime timeoutMs pollIntervalMs : Int)
    (c : CheckCycle) (rest : List CheckCycle) (processed : List String)
    (msgs : List Msg)
    (hexp : ¬ timeoutMs < c.now - startTime) (ht : c.transport = Except.ok msgs)
    (hfound : (pollCycle requestId msgs processed).found = none) :
    run requestId startTime timeoutMs pollIntervalMs (c :: rest) processed
      = ⟨(pollCycle requestId msgs processed).examined ++
          (run requestId startTime timeoutMs pollIntervalMs rest
            (pollCycle requestId msgs processed).processed).examined,
         pollIntervalMs :: (run requestId startTime timeoutMs pollIntervalMs rest
            (pollCycle requestId msgs processed).processed).delays,
         cycleOps (pollCycle requestId msgs processed).examined none ++
          (run requestId startTime timeoutMs pollIntervalMs rest
            (pollCycle requestId msgs processed).processed).ops,
         (run requestId startTime timeoutMs pollIntervalMs rest
            (pollCycle requestId msgs processed).processed).outcome⟩ := by
  simp [run, hexp, ht, hfound]

theorem run_examined_spec (requestId : String) (startTime timeoutMs pollIntervalMs : Int)
    (cycles : List CheckCycle) :
    ∀ processed,
      ((run requestId startTime timeoutMs pollIntervalMs cycles processed).examined.Nodup)
      ∧ (∀ x ∈ (run requestId startTime timeoutMs pollIntervalMs cycles processed).examined,
          x ∉ processed) := by
  induction cycles with
  | nil =>
    intro processed
    rw [run_nil]
    exact ⟨List.nodup_nil, by intro x hx; simp at hx⟩
  | cons c rest ih =>
    intro processed
    by_cases hexp : timeoutMs < c.now - startTime
    · rw [run_cons_expired _ _ _ _ _ _ _ hexp]
      exact ⟨List.nodup_nil, by intro x hx; simp at hx⟩
    · rcases ht : c.transport with e0 | msgs
    -- transport rejected (caught on line 74): same processed, recurse
      · cases e0
        rw [run_cons_error _ _ _ _ _ _ _ hexp ht]
        exact ih processed
      · rcases hfound : (pollCycle requestId msgs processed).found with _ | pr
        · rw [run_cons_nomatch _ _ _ _ _ _ _ _ hexp ht hfound]
          obtain ⟨pnd, pfresh, pin⟩ := pollCycle_examined_spec requestId msgs processed
          obtain ⟨rnd, rfresh⟩ := ih (pollCycle requestId msgs processed).processed
          refine ⟨?_, ?_⟩
          · refine List.nodup_append.mpr ⟨pnd, rnd, ?_⟩
            intro a ha hb
            exact (rfresh a hb) (pin a ha)
          · intro x hx
            rcases List.mem_append.mp hx with h1 | h1
            · exact pfresh x h1
            · exact fun hp =>
                (rfresh x h1) (pollCycle_processed_subset requestId msgs processed hp)
        · obtain ⟨resp, mid⟩ := pr
          rw [run_cons_found _ _ _ _ _ _ _ _ _ _ hexp ht hfound]
          obtain ⟨pnd, pfresh, _⟩ := pollCycle_examined_spec requestId msgs processed
          exact ⟨pnd, pfresh⟩

/-- A message that can never produce a match for requestId, whatever the
processed set: it has no id, its fetch failed, its subject does not contain
the request id, or its body does not decode. -/
def msgNoMatch (requestId : String) (m : Msg) : Bool :=
  match m.id, m.fetch with
  | some i, some em =>
    !(strContains em.subject requestId) || (extractApiResponse em.body requestId i).isNone
  | _, _ => true

/-- Messages a cycle offers (none when its list call fails). -/
def cycleMsgs (c : CheckCycle) : List Msg :=
  match c.transport with
  | Except.ok msgs => msgs
  | Except.error _ => []

/-- No cycle of the trace ever offers a matching candidate. -/
def noMatchTrace (requestId : String) (cycles : List CheckCycle) : Bool :=
  cycles.all (fun c => (cycleMsgs c).all (msgNoMatch requestId))

theorem pollCycle_found_none (requestId : String) (msgs : List Msg) :
    ∀ processed, (∀ m ∈ msgs, msgNoMatch requestId m = true) →
      (pollCycle requestId msgs processed).found = none := by
  induction msgs with
  | nil => intro processed _; rfl
  | cons m rest ih =>
    intro processed h
    have hrest := fun m2 hm2 => h m2 (List.mem_cons_of_mem _ hm2)
    have hm := h m (List.mem_cons_self m rest)
    rcases hid : m.id with _ | i
    · simp only [pollCycle, hid]
      exact ih processed hrest
    · by_cases hmem : i ∈ processed
      · simp only [pollCycle, hid, if_pos hmem]
        exact ih processed hrest
      · rcases hf : m.fetch with _ | em
        · simp only [pollCycle, hid, if_neg hmem, hf]
          exact ih (i :: processed) hrest
        · by_cases hsub : strContains em.subject requestId
          · have hex : extractApiResponse em.body requestId i = none := by
              simp only [msgNoMatch, hid, hf, hsub] at hm
              simpa using hm
            simp only [pollCycle, hid, if_neg hmem, hf, if_pos hsub, hex]
            exact ih (i :: processed) hrest
          · simp only [pollCycle, hid, if_neg hmem, hf, if_neg hsub]
            exact ih (i :: processed) hrest

theorem run_timeout_iff_aux (requestId : String) (startTime timeoutMs pollIntervalMs : Int)
    (cycles : List CheckCycle) :
    noMatchTrace requestId cycles = true →
    ∀ processed,
      ((∃ e, (run requestId startTime timeoutMs pollIntervalMs cycles processed).outcome
          = Outcome.timeout e)
        ↔ ∃ c ∈ cycles, timeoutMs < c.now - startTime) := by
  induction cycles with
  | nil =>
    intro _ processed
    constructor
    · rintro ⟨e, he⟩
      rw [run_nil] at he
      exact Outcome.noConfusion he
    · rintro ⟨c, hc, _⟩
      exact absurd hc (List.not_mem_nil c)
  | cons c rest ih =>
    intro h processed
    simp only [noMatchTrace, List.all_cons, Bool.and_eq_true] at h
    obtain ⟨hc, hrest⟩ := h
    have ihr := ih (by simpa [noMatchTrace] using hrest)
    by_cases hexp : timeoutMs < c.now - startTime
    · constructor
      · intro _
        exact ⟨c, List.mem_cons_self c rest, hexp⟩
      · intro _
        refine ⟨timeoutError timeoutMs requestId, ?_⟩
        rw [run_cons_expired _ _ _ _ _ _ _ hexp]
    · rcases ht : c.transport with e0 | msgs
      · cases e0
        rw [run_cons_error _ _ _ _ _ _ _ hexp ht]
        constructor
        · intro hex
          obtain ⟨c2, hc2, hlt⟩ := (ihr processed).mp hex
          exact ⟨c2, List.mem_cons_of_mem c hc2, hlt⟩
        · rintro ⟨c2, hc2, hlt⟩
          rcases List.mem_cons.mp hc2 with h1 | h1
          · subst h1
            exact absurd hlt hexp
          · exact (ihr processed).mpr ⟨c2, h1, hlt⟩
      · have hfound : (pollCycle requestId msgs processed).found = none := by
          apply pollCycle_found_none
          intro m hm
          have hall : (cycleMsgs c).all (msgNoMatch requestId) = true := hc
          simp only [cycleMsgs, ht] at hall
          exact List.all_eq_true.mp hall m hm
        rw [run_cons_nomatch _ _ _ _ _ _ _ _ hexp ht hfound]
        constructor
        · intro hex
          obtain ⟨c2, hc2, hlt⟩ := (ihr _).mp hex
          exact ⟨c2, List.mem_cons_of_mem c hc2, hlt⟩
        · rintro ⟨c2, hc2, hlt⟩
          rcases List.mem_cons.mp hc2 with h1 | h1
          · subst h1
            exact absurd hlt hexp
          · exact (ihr _).mpr ⟨c2, h1, hlt⟩

theorem run_timeout_val (requestId : String) (startTime timeoutMs pollIntervalMs : Int)
    (cycles : List CheckCycle) :
    ∀ processed e,
      (run requestId startTime timeoutMs pollIntervalMs cycles processed).outcome
        = Outcome.timeout e → e = timeoutError timeoutMs requestId := by
  induction cycles with
  | nil =>
    intro processed e he
    rw [run_nil] at he
    exact Outcome.noConfusion he
  | cons c rest ih =>
    intro processed e he
    by_cases hexp : timeoutMs < c.now - startTime
    · rw [run_cons_expired _ _ _ _ _ _ _ hexp] at he
      exact ((Outcome.timeout.injEq _ _).mp he).symm
    · rcases ht : c.transport with e0 | msgs
      · cases e0
        rw [run_cons_error _ _ _ _ _ _ _ hexp ht] at he
        exact ih processed e he
      · rcases hfound : (pollCycle requestId msgs processed).found with _ | pr
        · rw [run_cons_nomatch _ _ _ _ _ _ _ _ hexp ht hfound] at he
          exact ih _ e he
        · obtain ⟨resp, mid⟩ := pr
          rw [run_cons_found _ _ _ _ _ _ _ _ _ _ hexp ht hfound] at he
          exact Outcome.noConfusion he

theorem run_delays_all (requestId : String) (startTime timeoutMs pollIntervalMs : Int)
    (cycles : List CheckCycle) :
    ∀ processed d,
      d ∈ (run requestId startTime timeoutMs pollIntervalMs cycles processed).delays →
      d = pollIntervalMs := by
  induction cycles with
  | nil =>
    intro processed d hd
    rw [run_nil] at hd
    exact absurd hd (List.not_mem_nil d)
  | cons c rest ih =>
    intro processed d hd
    by_cases hexp : timeoutMs < c.now - startTime
    · rw [run_cons_expired _ _ _ _ _ _ _ hexp] at hd
      exact absurd hd (List.not_mem_nil d)
    · rcases ht : c.transport with e0 | msgs
      · cases e0
        rw [run_cons_error _ _ _ _ _ _ _ hexp ht] at hd
        rcases List.mem_cons.mp hd with h1 | h1
        · exact h1
        · exact ih processed d h1
      · rcases hfound : (pollCycle requestId msgs processed).found with _ | pr
        · rw [run_cons_nomatch _ _ _ _ _ _ _ _ hexp ht hfound] at hd
          rcases List.mem_cons.mp hd with h1 | h1
          · exact h1
          · exact ih _ d h1
        · obtain ⟨resp, mid⟩ := pr
          rw [run_cons_found _ _ _ _ _ _ _ _ _ _ hexp ht hfound] at hd
          exact absurd hd (List.not_mem_nil d)

theorem run_error_cycle_transparent (requestId : String)
    (startTime timeoutMs pollIntervalMs : Int) (c : CheckCycle)
    (hc : c.transport = Except.error ()) (hexp : ¬ timeoutMs < c.now - startTime) :
    ∀ (pre post : List CheckCycle) (processed : List String),
      (run requestId startTime timeoutMs pollIntervalMs (pre ++ c :: post) processed).outcome
        = (run requestId startTime timeoutMs pollIntervalMs (pre ++ post) processed).outcome := by
  intro pre
  induction pre with
  | nil =>
    intro post processed
    rw [List.nil_append, List.nil_append, run_cons_error _ _ _ _ _ _ _ hexp hc]
  | cons c0 pre0 ih =>
    intro post processed
    rw [List.cons_append, List.cons_append]
    by_cases h0 : timeoutMs < c0.now - startTime
    · rw [run_cons_expired _ _ _ _ _ _ _ h0, run_cons_expired _ _ _ _ _ _ _ h0]
    · rcases ht : c0.transport with e0 | msgs
      · cases e0
        rw [run_cons_error _ _ _ _ _ _ _ h0 ht, run_cons_error _ _ _ _ _ _ _ h0 ht]
        exact ih post processed
      · rcases hfound : (pollCycle requestId msgs processed).found with _ | pr
        · rw [run_cons_nomatch _ _ _ _ _ _ _ _ h0 ht hfound,
            run_cons_nomatch _ _ _ _ _ _ _ _ h0 ht hfound]
          exact ih post _
        · obtain ⟨resp, mid⟩ := pr
          rw [run_cons_found _ _ _ _ _ _ _ _ _ _ h0 ht hfound,
            run_cons_found _ _ _ _ _ _ _ _ _ _ h0 ht hfound]

theorem pollCycle_found_spec (requestId : String) (msgs : List Msg) :
    ∀ processed r mid,
      (pollCycle requestId msgs processed).found = some (r, mid) →
      ∃ m ∈ msgs, m.id = some mid ∧ ∃ em, m.fetch = some em ∧
        strContains em.subject requestId = true ∧
        extractApiResponse em.body requestId mid = some r := by
  induction msgs with
  | nil =>
    intro processed r mid h
    exact Option.noConfusion h
  | cons m rest ih =>
    intro processed r mid h
    rcases hid : m.id with _ | i
    · simp only [pollCycle, hid] at h
      obtain ⟨m2, hm2, hrest⟩ := ih processed r mid h
      exact ⟨m2, List.mem_cons_of_mem m hm2, hrest⟩
    · by_cases hmem : i ∈ processed
      · simp only [pollCycle, hid, if_pos hmem] at h
        obtain ⟨m2, hm2, hrest⟩ := ih processed r mid h
        exact ⟨m2, List.mem_cons_of_mem m hm2, hrest⟩
      · rcases hf : m.fetch with _ | em
        · simp only [pollCycle, hid, if_neg hmem, hf] at h
          obtain ⟨m2, hm2, hrest⟩ := ih _ r mid h
          exact ⟨m2, List.mem_cons_of_mem m hm2, hrest⟩
        · by_cases hsub : strContains em.subject requestId
          · rcases hex : extractApiResponse em.body requestId i with _ | resp
            · simp only [pollCycle, hid, if_neg hmem, hf, if_pos hsub, hex] at h
              obtain ⟨m2, hm2, hrest⟩ := ih _ r mid h
              exact ⟨m2, List.mem_cons_of_mem m hm2, hrest⟩
            · simp only [pollCycle, hid, if_neg hmem, hf, if_pos hsub, hex,
                Option.some.injEq, Prod.mk.injEq] at h
              obtain ⟨h1, h2⟩ := h
              subst h2
              exact ⟨m, List.mem_cons_self m rest, hid, em, hf, hsub,
                h1 ▸ hex⟩
          · simp only [pollCycle, hid, if_neg hmem, hf, if_neg hsub] at h
            obtain ⟨m2, hm2, hrest⟩ := ih _ r mid h
            exact ⟨m2, List.mem_cons_of_mem m hm2, hrest⟩

/-! ## Claims about the watcher -/

/-- C1 counterexample: matching is substring containment on the subject
(line 127), so with c1 = abc-123 and c2 = bc-12 (distinct ids, c2 a
substring of the subject tagged with c1), a reply tagged c1 resolves a poll
awaiting c2 — refuting the claim for arbitrary id strings. -/
theorem poll_cross_id_match_counterexample :
    ("abc-123" : String) ≠ "bc-12" ∧
    (pollCycle "bc-12"
      [⟨some "m1", some ⟨"m1", "t1", "cal@example.com",
        buildSubject "GET" "list" "abc-123", "\x7b\"status\":\"success\"\x7d", 0⟩⟩] []).found
      = some ([("requestId", Json.str "bc-12"), ("messageId", Json.str "m1"),
               ("status", Json.str "success")], "m1") :=
  ⟨by decide, by rfl⟩

/-- C1 (amended): poll awaiting an id returns a response only from a
candidate whose fetched subject contains that id as a substring, the
response being built by extractApiResponse from that candidate alone — no
thread-id fallback; consequently, when no candidate subject contains the
awaited id (in particular a reply whose tag carries a different id that
does not overlap it), poll never resolves the wait.  The original claim's
quantification over arbitrary id strings, including substring-related
ones, is false: containment, not id equality, is what line 127 tests. -/
theorem poll_correlationId_isolation (requestId : String) (msgs : List Msg)
    (processed : List String) :
    (∀ r mid, (pollCycle requestId msgs processed).found = some (r, mid) →
      ∃ m ∈ msgs, m.id = some mid ∧ ∃ em, m.fetch = some em ∧
        strContains em.subject requestId = true ∧
        extractApiResponse em.body requestId mid = some r)
    ∧ ((∀ m ∈ msgs, ∀ em, m.fetch = some em →
          strContains em.subject requestId = false) →
        (pollCycle requestId msgs processed).found = none) := by
  constructor
  · exact fun r mid h => pollCycle_found_spec requestId msgs processed r mid h
  · intro hnone
    apply pollCycle_found_none
    intro m hm
    rcases hid : m.id with _ | i
    · simp [msgNoMatch, hid]
    · rcases hf : m.fetch with _ | em
      · simp [msgNoMatch, hid, hf]
      · have hs := hnone m hm em hf
        simp [msgNoMatch, hid, hf, hs]

/-- Witness for C1 at a concrete matching candidate. -/
theorem poll_correlationId_isolation_witness :
    ∃ m ∈ [(⟨some "m9", some ⟨"m9", "t9", "cal",
        buildSubject "GET" "list" "zz-9", "\x7b\"ok\":true\x7d", 0⟩⟩ : Msg)],
      m.id = some "m9" ∧ ∃ em, m.fetch = some em ∧
        strContains em.subject "zz-9" = true ∧
        extractApiResponse em.body "zz-9" "m9"
          = some [("requestId", Json.str "zz-9"), ("messageId", Json.str "m9"),
                  ("ok", Json.bool true)] :=
  (poll_correlationId_isolation "zz-9"
    [⟨some "m9", some ⟨"m9", "t9", "cal",
      buildSubject "GET" "list" "zz-9", "\x7b\"ok\":true\x7d", 0⟩⟩] []).1
    _ "m9" (by rfl)

/-- C2: with no matching candidate anywhere in the trace, waitForResponse
rejects exactly when some check observes Date.now() minus startTime
strictly above timeoutMs — never earlier, and never hanging once a check
runs past the deadline — and the rejection carries the TIMEOUT code and
the awaited request id. -/
theorem waitForResponse_timeout_exact (requestId : String)
    (startTime timeoutMs pollIntervalMs : Int) (cycles : List CheckCycle)
    (h : noMatchTrace requestId cycles = true) :
    ((∃ e, (waitForResponse requestId startTime timeoutMs pollIntervalMs cycles).outcome
        = Outcome.timeout e)
      ↔ ∃ c ∈ cycles, timeoutMs < c.now - startTime)
    ∧ (∀ e, (waitForResponse requestId startTime timeoutMs pollIntervalMs cycles).outcome
        = Outcome.timeout e →
        e.code = ErrorCodes.TIMEOUT ∧ e.requestId = some requestId) := by
  constructor
  · exact run_timeout_iff_aux requestId startTime timeoutMs pollIntervalMs cycles h []
  · intro e he
    have hval := run_timeout_val requestId startTime timeoutMs pollIntervalMs cycles [] e he
    refine ⟨?_, ?_⟩ <;> rw [hval] <;> rfl

/-- Witness for C2: an empty-inbox trace whose second check is past the
deadline times out. -/
theorem waitForResponse_timeout_exact_witness :
    ∃ e, (waitForResponse "req-w" 0 30000 2000
      [⟨0, Except.ok []⟩, ⟨31000, Except.ok []⟩]).outcome = Outcome.timeout e :=
  ((waitForResponse_timeout_exact "req-w" 0 30000 2000
      [⟨0, Except.ok []⟩, ⟨31000, Except.ok []⟩] (by decide)).1).mpr
    ⟨⟨31000, Except.ok []⟩, List.Mem.tail _ (List.Mem.head _), by decide⟩

/-- C3: a listed candidate whose id is already in processedMessageIds is
skipped — the cycle proceeds as if it were absent, so it is neither fetched
nor re-evaluated; the set only grows; and over a full waitForResponse,
whose watcher is constructed with a fresh empty set, no id is ever fetched
twice (the examined trace has no duplicates). -/
theorem processedMessageIds_at_most_once (requestId : String) :
    (∀ (m : Msg) (rest : List Msg) (processed : List String) (i : String),
      m.id = some i → i ∈ processed →
      pollCycle requestId (m :: rest) processed = pollCycle requestId rest processed)
    ∧ (∀ (msgs : List Msg) (processed : List String),
        processed ⊆ (pollCycle requestId msgs processed).processed)
    ∧ (∀ (startTime timeoutMs pollIntervalMs : Int) (cycles : List CheckCycle),
        (waitForResponse requestId startTime timeoutMs pollIntervalMs cycles).examined.Nodup) :=
  ⟨fun m rest processed i hid hmem => pollCycle_skip requestId m rest processed i hid hmem,
   fun msgs processed => pollCycle_processed_subset requestId msgs processed,
   fun startTime timeoutMs pollIntervalMs cycles =>
     (run_examined_spec requestId startTime timeoutMs pollIntervalMs cycles []).1⟩

/-- Witness for C3: a concrete already-processed candidate is skipped. -/
theorem processedMessageIds_at_most_once_witness :
    pollCycle "rw" [⟨some "dup", some ⟨"dup", "t", "f", "s", "b", 0⟩⟩] ["dup"]
      = pollCycle "rw" [] ["dup"] :=
  (processedMessageIds_at_most_once "rw").1 _ _ ["dup"] "dup" rfl (by decide)

/-- C6: a poll cycle whose list call rejects before the deadline is
transparent: the final outcome equals that of the trace without it (the
error is swallowed and the wait continues to the overall deadline); every
scheduled retry delay equals pollIntervalMs; and the only rejection
waitForResponse ever produces is the TIMEOUT error — a transient poll
failure never becomes a different rejection. -/
theorem transient_poll_error_swallowed (requestId : String)
    (startTime timeoutMs pollIntervalMs : Int) :
    (∀ (c : CheckCycle), c.transport = Except.error () →
      ¬ timeoutMs < c.now - startTime →
      ∀ (pre post : List CheckCycle) (processed : List String),
        (run requestId startTime timeoutMs pollIntervalMs
            (pre ++ c :: post) processed).outcome
          = (run requestId startTime timeoutMs pollIntervalMs
              (pre ++ post) processed).outcome)
    ∧ (∀ (cycles : List CheckCycle) (d : Int),
        d ∈ (waitForResponse requestId startTime timeoutMs pollIntervalMs cycles).delays →
        d = pollIntervalMs)
    ∧ (∀ (cycles : List CheckCycle) (e : CalendarApiError),
        (waitForResponse requestId startTime timeoutMs pollIntervalMs cycles).outcome
          = Outcome.timeout e → e = timeoutError timeoutMs requestId) :=
  ⟨fun c hc hexp =>
     run_error_cycle_transparent requestId startTime timeoutMs pollIntervalMs c hc hexp,
   fun cycles d hd =>
     run_delays_all requestId startTime timeoutMs pollIntervalMs cycles [] d hd,
   fun cycles e he =>
     run_timeout_val requestId startTime timeoutMs pollIntervalMs cycles [] e he⟩

/-- Witness for C6: dropping a concrete failing cycle leaves the outcome
unchanged. -/
theorem transient_poll_error_swallowed_witness :
    (run "rw" 0 30000 2000
        ([] ++ (⟨100, Except.error ()⟩ : CheckCycle) :: [⟨200, Except.ok []⟩]) []).outcome
      = (run "rw" 0 30000 2000 ([] ++ [⟨200, Except.ok []⟩]) []).outcome :=
  (transient_poll_error_swallowed "rw" 0 30000 2000).1
    ⟨100, Except.error ()⟩ rfl (by decide) [] [⟨200, Except.ok []⟩] []

/-! ## Claims about the client facade -/

/-- C9: an action outside the allow-list short-circuits before
ensureConnected and before any transport call: sendRequest returns the
skipped response with an empty transport-op list whatever the connection
state, and the public wrapper returns it with status skipped and durationMs
set. -/
theorem unsupported_action_skipped_noop (action : String) (connected : Bool)
    (sendRes : Except CalendarApiError SentEmailMetadata)
    (startTime timeoutMs pollIntervalMs : Int) (cycles : List CheckCycle)
    (start fin : Int) (h : action ∉ supportedActions) :
    sendRequest action connected sendRes startTime timeoutMs pollIntervalMs cycles
      = (some (Except.ok skippedResponse), [])
    ∧ apiCall action connected sendRes startTime timeoutMs pollIntervalMs cycles start fin
      = (some (objSet skippedResponse "durationMs" (Json.num (toString (fin - start)))), [])
    ∧ objGet (objSet skippedResponse "durationMs" (Json.num (toString (fin - start)))) "status"
      = some (Json.str "skipped") := by
  have h1 : sendRequest action connected sendRes startTime timeoutMs pollIntervalMs cycles
      = (some (Except.ok skippedResponse), []) := by
    simp [sendRequest, h]
  refine ⟨h1, ?_, ?_⟩
  · simp [apiCall, h1, executeApiCall]
  · rfl

/-- Witness for C9: createEvent (action create, unsupported) while
connected is a pure no-op returning skipped. -/
theorem unsupported_action_skipped_noop_witness :
    apiCall "create" true (Except.ok ⟨"r", "s", "t", 0⟩) 0 30000 2000 [] 0 7
      = (some (objSet skippedResponse "durationMs"
          (Json.num (toString ((7 : Int) - (0 : Int))))), []) :=
  (unsupported_action_skipped_noop "create" true (Except.ok ⟨"r", "s", "t", 0⟩)
    0 30000 2000 [] 0 7 (by decide)).2.1

/-- C8 counterexample: with the client disconnected, listEvents does not
raise a hard failure: sendRequest rejects with the NOT_CONNECTED error, but
executeApiCall catches it and the public operation returns an ordinary
status:error response (durationMs set) — and performs zero transport
calls.  This refutes the claim's hard-failure propagation. -/
theorem disconnected_normalized_counterexample :
    sendRequest "list" false (Except.ok ⟨"r", "s", "t", 0⟩) 0 30000 2000 []
      = (some (Except.error notConnectedError), [])
    ∧ listEvents false (Except.ok ⟨"r", "s", "t", 0⟩) 0 30000 2000 [] 0 5
      = (some [("status", Json.str "error"), ("requestId", Json.str ""),
               ("error", Json.str "Client is not connected. Call connect() first."),
               ("data", Json.obj [("code", Json.str "NOT_CONNECTED")]),
               ("durationMs", Json.num "5")], []) :=
  ⟨by rfl, by rfl⟩

/-- C8 (amended): a supported action invoked while disconnected performs
zero transport calls; the internal sendRequest rejects with the
NOT_CONNECTED CalendarApiError, and the public wrapper normalizes that
rejection into a status:error response carrying code NOT_CONNECTED rather
than raising it. -/
theorem disconnected_rejects_without_transport (action : String)
    (sendRes : Except CalendarApiError SentEmailMetadata)
    (startTime timeoutMs pollIntervalMs : Int) (cycles : List CheckCycle)
    (start fin : Int) (h : action ∈ supportedActions) :
    sendRequest action false sendRes startTime timeoutMs pollIntervalMs cycles
      = (some (Except.error notConnectedError), [])
    ∧ apiCall action false sendRes startTime timeoutMs pollIntervalMs cycles start fin
      = (some (objSet (paramsErrorMessage notConnectedError) "durationMs"
          (Json.num (toString (fin - start)))), [])
    ∧ objGet (objSet (paramsErrorMessage notConnectedError) "durationMs"
        (Json.num (toString (fin - start)))) "status" = some (Json.str "error")
    ∧ objGet (objSet (paramsErrorMessage notConnectedError) "durationMs"
        (Json.num (toString (fin - start)))) "data"
      = some (Json.obj [("code", Json.str ErrorCodes.NOT_CONNECTED)]) := by
  have h1 : sendRequest action false sendRes startTime timeoutMs pollIntervalMs cycles
      = (some (Except.error notConnectedError), []) := by
    simp [sendRequest, h]
  refine ⟨h1, ?_, ?_, ?_⟩
  · simp [apiCall, h1, executeApiCall]
  · rfl
  · rfl

/-- Witness for C8 at the one supported action. -/
theorem disconnected_rejects_without_transport_witness :
    sendRequest "list" false (Except.ok ⟨"rz", "sz", "tz", 0⟩) 0 30000 2000 []
      = (some (Except.error notConnectedError), []) :=
  (disconnected_rejects_without_transport "list" (Except.ok ⟨"rz", "sz", "tz", 0⟩)
    0 30000 2000 [] 0 9 (by decide)).1

/-- C7 counterexample: a completed listEvents whose matched payload lacks a
status key returns a response with no status field at all — refuting that
every completed operation carries status in success/error/skipped.
durationMs is still set and nothing is raised. -/
theorem apiCall_status_unconstrained_counterexample :
    (listEvents true (Except.ok ⟨"r1", "s1", "t1", 0⟩) 0 30000 2000
      [⟨100, Except.ok [⟨some "m1", some ⟨"m1", "th1", "cal",
        "Re: " ++ buildSubject "GET" "list" "r1", "\x7b\"x\":1\x7d", 0⟩⟩]⟩] 0 5).1
      = some [("requestId", Json.str "r1"), ("messageId", Json.str "m1"),
              ("x", Json.num "1"), ("durationMs", Json.num "5")]
    ∧ objGet [("requestId", Json.str "r1"), ("messageId", Json.str "m1"),
              ("x", Json.num "1"), ("durationMs", Json.num "5")] "status" = none :=
  ⟨by rfl, by rfl⟩

/-- C7 (amended): every public operation that completes returns a response
object — rejections (timeout, send failure, not-connected) are normalized
by executeApiCall, never raised — with durationMs always set to the
measured duration; on the skipped and rejection paths the status is
skipped or error respectively, while on a match the response is the
decoded payload spread over requestId and messageId, so its status is
whatever the payload supplies (the counterexample shows it can be absent). -/
theorem apiCall_always_returns_response (action : String) (connected : Bool)
    (sendRes : Except CalendarApiError SentEmailMetadata)
    (startTime timeoutMs pollIntervalMs : Int) (cycles : List CheckCycle)
    (start fin : Int) (r : JsObj)
    (h : (apiCall action connected sendRes startTime timeoutMs
        pollIntervalMs cycles start fin).1 = some r) :
    objGet r "durationMs" = some (Json.num (toString (fin - start)))
    ∧ (objGet r "status" = some (Json.str "error")
       ∨ objGet r "status" = some (Json.str "skipped")
       ∨ ∃ meta p procd, sendRes = Except.ok meta
           ∧ (waitForResponse meta.requestId startTime timeoutMs
               pollIntervalMs cycles).outcome = Outcome.found p procd
           ∧ r = objSet p "durationMs" (Json.num (toString (fin - start)))) := by
  by_cases ha : action ∈ supportedActions
  · by_cases hc2 : connected
    · cases sendRes with
      | error e =>
        have hr : r = objSet (paramsErrorMessage e) "durationMs"
            (Json.num (toString (fin - start))) := by
          simp [apiCall, sendRequest, ha, hc2, executeApiCall] at h
          exact h.symm
        subst hr
        refine ⟨objGet_objSet_self _ _ _, Or.inl ?_⟩
        rw [objGet_objSet_other _ _ _ _ (by decide)]
        rfl
      | ok meta =>
        cases houtcome : (waitForResponse meta.requestId startTime timeoutMs
            pollIntervalMs cycles).outcome with
        | found p procd =>
          have hr : r = objSet p "durationMs" (Json.num (toString (fin - start))) := by
            simp [apiCall, sendRequest, ha, hc2, houtcome, executeApiCall] at h
            exact h.symm
          subst hr
          exact ⟨objGet_objSet_self _ _ _,
            Or.inr (Or.inr ⟨meta, p, procd, rfl, houtcome, rfl⟩)⟩
        | timeout e =>
          have hr : r = objSet (paramsErrorMessage e) "durationMs"
              (Json.num (toString (fin - start))) := by
            simp [apiCall, sendRequest, ha, hc2, houtcome, executeApiCall] at h
            exact h.symm
          subst hr
          refine ⟨objGet_objSet_self _ _ _, Or.inl ?_⟩
          rw [objGet_objSet_other _ _ _ _ (by decide)]
          rfl
        | pending procd =>
          simp [apiCall, sendRequest, ha, hc2, houtcome] at h
    · have hr : r = objSet (paramsErrorMessage notConnectedError) "durationMs"
          (Json.num (toString (fin - start))) := by
        simp [apiCall, sendRequest, ha, hc2, executeApiCall] at h
        exact h.symm
      subst hr
      refine ⟨objGet_objSet_self _ _ _, Or.inl ?_⟩
      rw [objGet_objSet_other _ _ _ _ (by decide)]
      rfl
  · have hr : r = objSet skippedResponse "durationMs"
        (Json.num (toString (fin - start))) := by
      simp [apiCall, sendRequest, ha, executeApiCall] at h
      exact h.symm
    subst hr
    refine ⟨objGet_objSet_self _ _ _, Or.inr (Or.inl ?_)⟩
    rw [objGet_objSet_other _ _ _ _ (by decide)]
    rfl

/-- Witness for C7: a completed healthCheck (skipped path). -/
theorem apiCall_always_returns_response_witness :
    objGet (objSet skippedResponse "durationMs"
        (Json.num (toString ((5 : Int) - (0 : Int))))) "durationMs"
      = some (Json.num (toString ((5 : Int) - (0 : Int)))) :=
  (apiCall_always_returns_response "health" false (Except.ok ⟨"r", "s", "t", 0⟩)
    0 30000 2000 [] 0 5 _ (by rfl)).1
